import Mathlib

/-!
Shallow embedding of src/extension/mic_capture.c, the CrankScribe
microphone capture extension, together with proofs about the claims of
the specification.

Modelling conventions:
  - C machine integers are modelled as Int or Nat, with explicit
    wrapping (toInt16, reduction mod 256 or 65536) exactly where the C
    code converts or overflows.
  - The float state variables of the pipeline (sample_accumulator,
    accumulated_samples, current_level) are modelled by exact rational
    arithmetic; the float literal DOWNSAMPLE_FACTOR 5.5125f stands for
    its intended exact value 44100/8000.
  - The level meter stores the radicand of the RMS (current_level_sq);
    the observation mic_getLevel takes the real square root, the one
    non-rational operation of the program.
  - Allocation (pd->system->realloc) is modelled by Boolean outcomes
    supplied by the environment: an AllocPlan gives the outcome of each
    allocation site of one callback loop iteration, and control
    operations take the outcome of their allocations as arguments.
    A buffer is Option of its committed contents; none models NULL.
  - The raw and compressed buffers are modelled by their committed
    contents (the prefix the code has written) plus the cursor and
    capacity variables of the C code; realloc growth preserves
    contents, so a successful growth only changes buffer_size.
-/

namespace MicCapture

/-! ## Configuration constants (mic_capture.c lines 19-52) -/

def SAMPLE_RATE_INPUT : ℕ := 44100

def SAMPLE_RATE_OUTPUT : ℕ := 8000

/-- The float constant DOWNSAMPLE_FACTOR 5.5125f, modelled by its exact
intended value 44100/8000. -/
def DOWNSAMPLE_FACTOR : ℚ := 44100 / 8000

def INITIAL_BUFFER_SAMPLES : ℕ := 8000 * 30

def BUFFER_GROW_SAMPLES : ℕ := 8000 * 30

def CHUNK_DURATION_SECONDS : ℕ := 30

def CHUNK_SAMPLES : ℕ := 8000 * CHUNK_DURATION_SECONDS

def VAD_FRAME_SIZE : ℕ := 160

def VAD_THRESHOLD : ℤ := 300

def VAD_HOLDOVER_FRAMES : ℤ := 25

/-! ## Machine integer helpers -/

/-- Reinterpretation of an integer as a signed 16-bit value, the
two's complement wrap performed by a C int16_t conversion. -/
def toInt16 (n : ℤ) : ℤ := (n + 32768) % 65536 - 32768

/-- Truncation toward zero, the behaviour of a C cast from a real
quantity to an integer type. -/
def ratTrunc (q : ℚ) : ℤ := if 0 ≤ q then ⌊q⌋ else ⌈q⌉

/-- Arithmetic right shift of a two's complement integer, which is
floor division by the corresponding power of two. -/
def arithShift (a : ℤ) (k : ℕ) : ℤ := Int.fdiv a (Int.ofNat (2 ^ k))

/-! ## The mu-law encoder (lines 84-117) -/

/-- Test of a single two's complement bit: for a power-of-two mask m,
the C expression (sample & m) is nonzero exactly when the arithmetic
shift of sample by the mask's bit position, i.e. the floor division by
m, is odd. -/
def maskTest (sample m : ℤ) : Bool := Int.fdiv sample m % 2 = 1

/-- The exponent search of init_mulaw_table (lines 101-105): starting
from 7, decrement once for each mask from 0x4000 down to 0x100 that
misses the sample, stopping at the first hit. -/
def expLoop (sample : ℤ) : List ℤ → ℕ → ℕ
  | [], e => e
  | m :: ms, e => if maskTest sample m then e else expLoop sample ms (e - 1)

/-- The masks scanned by the exponent loop, 0x4000 halving to 0x100. -/
def expMasks : List ℤ := [0x4000, 0x2000, 0x1000, 0x800, 0x400, 0x200, 0x100]

/-- Entry i of the lookup table built by init_mulaw_table (lines
84-112).  The sign test (sample >> 8) & 0x80 yields 0x80 exactly when
the int16 sample is negative; the negation -sample is an int16_t
negation, so -(-32768) wraps back to -32768; the mantissa expression
(sample >> (exponent + 3)) & 0x0F is the nonnegative residue mod 16 of
the arithmetic shift; sign | (exponent << 4) | mantissa combines three
disjoint bit fields, hence equals their sum with exponent scaled by
16; the final complement is assigned to a uint8_t. -/
def mulaw_encode_table (i : ℕ) : ℕ :=
  let sample0 : ℤ := toInt16 i
  let sign : ℤ := if sample0 < 0 then 0x80 else 0
  let sample1 : ℤ := if sign ≠ 0 then toInt16 (-sample0) else sample0
  let sample2 : ℤ := if 32635 < sample1 then 32635 else sample1
  let sample3 : ℤ := sample2 + 0x84
  let exponent : ℕ := expLoop sample3 expMasks 7
  let mantissa : ℤ := arithShift sample3 (exponent + 3) % 16
  let code : ℤ := sign + (exponent : ℤ) * 16 + mantissa
  ((-code - 1) % 256).toNat

/-- mulaw_encode (lines 115-117): table lookup at the uint16_t
reinterpretation of the sample. -/
def mulaw_encode (s : ℤ) : ℕ := mulaw_encode_table ((s % 65536).toNat)

/-- Modelled from the spec (section 4.4 of the specification): the
table construction algorithm as the specification states it, namely
take the true magnitude of the signed sample (negate if negative),
clip to 32635, add the bias 0x84, then the same exponent, mantissa,
combination and complement steps.  Used only to compare the code's
table against the claimed algorithm. -/
def mulawSpecCode (s : ℤ) : ℕ :=
  let mag0 : ℤ := if s < 0 then -s else s
  let sign : ℤ := if s < 0 then 0x80 else 0
  let mag1 : ℤ := if 32635 < mag0 then 32635 else mag0
  let mag2 : ℤ := mag1 + 0x84
  let exponent : ℕ := expLoop mag2 expMasks 7
  let mantissa : ℤ := arithShift mag2 (exponent + 3) % 16
  let code : ℤ := sign + (exponent : ℤ) * 16 + mantissa
  ((-code - 1) % 256).toNat

/-! ## The rate converter state (lines 56-58) -/

/-- The downsampling state: the fractional accumulator
sample_accumulator, the running sum accumulated_samples and the
running count sample_count (lines 56-58). -/
structure DownsampleState where
  sample_accumulator : ℚ
  accumulated_samples : ℚ
  sample_count : ℕ
deriving DecidableEq

/-- One native sample through the rate converter (lines 363-365,
368, 388-389, 406-408): accumulate, and emit the truncated mean cast
to int16_t when the accumulator reaches DOWNSAMPLE_FACTOR, carrying
the fractional remainder by subtracting the ratio. -/
def downsampleStep (d : DownsampleState) (x : ℤ) : Option ℤ × DownsampleState :=
  let acc1 := d.sample_accumulator + 1
  let sum1 := d.accumulated_samples + (x : ℚ)
  let cnt1 := d.sample_count + 1
  if DOWNSAMPLE_FACTOR ≤ acc1 then
    (some (toInt16 (ratTrunc (sum1 / (cnt1 : ℚ)))), ⟨acc1 - DOWNSAMPLE_FACTOR, 0, 0⟩)
  else
    (none, ⟨acc1, sum1, cnt1⟩)

/-- The rate converter over a list of native samples: the emitted
output samples and the final downsampling state. -/
def downsampleRun (d : DownsampleState) : List ℤ → List ℤ × DownsampleState
  | [] => ([], d)
  | x :: xs =>
    let r := downsampleStep d x
    match r.1 with
    | some v =>
      let rest := downsampleRun r.2 xs
      (v :: rest.1, rest.2)
    | none => downsampleRun r.2 xs

/-! ## The recording state (lines 24-58, 125-126) -/

/-- The outcome of the allocation sites reachable in one iteration of
the callback loop: growth of the raw buffer, growth of the compressed
buffer, and the chunk buffer allocation. -/
structure AllocPlan where
  grow_raw_ok : Bool
  grow_comp_ok : Bool
  chunk_ok : Bool
deriving DecidableEq

/-- The plan on which every allocation succeeds. -/
def allOk : AllocPlan := ⟨true, true, true⟩

/-- A per-iteration allocation plan on which every allocation
succeeds. -/
def allOkf : ℕ → AllocPlan := fun _ => allOk

/-- The global recording state of mic_capture.c: the file-scope
variables of lines 24-58 and 125-126.  Buffers are Option of their
committed contents (none models NULL); current_level_sq is the
radicand of current_level. -/
structure MicState where
  is_recording : Bool
  audio_buffer : Option (List ℤ)
  compressed_buffer : Option (List ℕ)
  buffer_size : ℕ
  buffer_position : ℕ
  compressed_position : ℕ
  current_level_sq : ℚ
  chunk_ready : Bool
  chunk_buffer : Option (List ℕ)
  chunk_size : ℕ
  chunk_sequence : ℤ
  vad_holdover : ℤ
  vad_enabled : Bool
  vad_frame : List ℤ
  vad_frame_pos : ℕ
  sample_accumulator : ℚ
  accumulated_samples : ℚ
  sample_count : ℕ
deriving DecidableEq

/-- The downsampling fields of the recording state. -/
def dsOf (S : MicState) : DownsampleState :=
  ⟨S.sample_accumulator, S.accumulated_samples, S.sample_count⟩

/-! ## Voice activity detection (lines 129-151) -/

/-- frame_has_speech (lines 129-151).  Reads the frame ring, its
write index and the holdover counter; returns the speech decision and
the new value of vad_holdover, the one variable the C function
mutates.  The energy is the mean absolute amplitude over the whole
160-entry frame array, using C integer division. -/
def frame_has_speech (S : MicState) : Bool × ℤ :=
  if S.vad_frame_pos < VAD_FRAME_SIZE then (true, S.vad_holdover)
  else
    let energy : ℤ := (S.vad_frame.foldl (fun a v => a + |v|) 0) / (VAD_FRAME_SIZE : ℤ)
    if VAD_THRESHOLD < energy then (true, VAD_HOLDOVER_FRAMES)
    else if 0 < S.vad_holdover then (true, S.vad_holdover - 1)
    else (false, S.vad_holdover)

/-! ## The capture callback (lines 346-432) -/

/-- The buffer growth check of lines 369-386: when the raw cursor has
reached the capacity, both buffers are reallocated larger.  Returns
none when a reallocation fails (the callback then returns 0 with the
accumulator state it had at that point; a realloc failure leaves the
old contents intact, and buffer_size is only updated after both
successes, so the state is unchanged either way). -/
def growCheck (p : AllocPlan) (S : MicState) : Option MicState :=
  if S.buffer_size ≤ S.buffer_position then
    if p.grow_raw_ok then
      if p.grow_comp_ok then
        some { S with buffer_size := S.buffer_size + BUFFER_GROW_SAMPLES }
      else none
    else none
  else some S

/-- Lines 388-408, after growth has been ensured: compute the output
sample as the int16_t cast of the truncated mean, append it to the raw
track, insert it into the VAD ring and advance the ring index, apply
the gate (frame_has_speech is only called when vad_enabled, as the C
short-circuit does), append the mu-law byte to the compressed track
when the gate passes, advance the raw cursor and reset the
accumulator, subtracting DOWNSAMPLE_FACTOR from it.  The state S here
already carries the incremented accumulator of lines 363-365. -/
def emitSample (S : MicState) : MicState :=
  let output_sample : ℤ :=
    toInt16 (ratTrunc (S.accumulated_samples / (S.sample_count : ℚ)))
  let S4 : MicState :=
    { S with
      audio_buffer := S.audio_buffer.map (fun a => a ++ [output_sample])
      vad_frame := S.vad_frame.set (S.vad_frame_pos % VAD_FRAME_SIZE) output_sample
      vad_frame_pos := S.vad_frame_pos + 1 }
  let pr : Bool × ℤ :=
    if S4.vad_enabled then frame_has_speech S4 else (true, S4.vad_holdover)
  let S6 : MicState := { S4 with vad_holdover := pr.2 }
  let S7 : MicState :=
    if pr.1 then
      { S6 with
        compressed_buffer := S6.compressed_buffer.map (fun c => c ++ [mulaw_encode output_sample])
        compressed_position := S6.compressed_position + 1 }
    else S6
  { S7 with
    buffer_position := S7.buffer_position + 1
    accumulated_samples := 0
    sample_count := 0
    sample_accumulator := S.sample_accumulator - DOWNSAMPLE_FACTOR }

/-- The chunk boundary check of lines 411-428, executed for every
input sample: at a positive multiple of CHUNK_SAMPLES with no pending
chunk, chunk_size is set to the compressed cursor; when it is positive
the chunk buffer is allocated (on failure the chunk pointer is left
NULL and no chunk is published); the compressed cursor is then reset
for the next interval. -/
def chunkCheck (p : AllocPlan) (S : MicState) : MicState :=
  if 0 < S.buffer_position ∧ S.buffer_position % CHUNK_SAMPLES = 0 ∧ S.chunk_ready = false then
    let S1 : MicState := { S with chunk_size := S.compressed_position }
    let S2 : MicState :=
      if 0 < S1.chunk_size then
        if p.chunk_ok then
          { S1 with
            chunk_buffer := some ((S1.compressed_buffer.getD []).take S1.chunk_size)
            chunk_ready := true
            chunk_sequence := S1.chunk_sequence + 1 }
        else { S1 with chunk_buffer := none }
      else S1
    { S2 with compressed_position := 0 }
  else S

/-- The body of the callback loop (lines 362-429) for one input
sample: advance the accumulator, and on reaching the ratio grow the
buffers if needed (returning false, the out-of-memory abort, when a
reallocation fails) and emit; in every non-aborting case run the chunk
boundary check. -/
def stepSample (p : AllocPlan) (S : MicState) (x : ℤ) : Bool × MicState :=
  let S1 : MicState :=
    { S with
      sample_accumulator := S.sample_accumulator + 1
      accumulated_samples := S.accumulated_samples + (x : ℚ)
      sample_count := S.sample_count + 1 }
  if DOWNSAMPLE_FACTOR ≤ S1.sample_accumulator then
    match growCheck p S1 with
    | none => (false, S1)
    | some S2 => (true, chunkCheck p (emitSample S2))
  else (true, chunkCheck p S1)

/-- The callback loop over the input block; pf gives the allocation
plan of each iteration.  Returns the C return value (0 on abort, 1 on
completion) and the final state. -/
def micLoop (pf : ℕ → AllocPlan) : ℕ → MicState → List ℤ → ℤ × MicState
  | _, S, [] => (1, S)
  | k, S, x :: xs =>
    let r := stepSample (pf k) S x
    if r.1 then micLoop pf (k + 1) r.2 xs else (0, r.2)

/-- The squared-sample sum of the level meter (lines 354-358). -/
def levelSumSq (data : List ℤ) : ℚ :=
  data.foldl (fun (a : ℚ) (x : ℤ) => a + ((x : ℚ) / 32768) * ((x : ℚ) / 32768)) 0

/-- micCallback (lines 346-432): bail out returning 0 when not
recording or a buffer is NULL; otherwise overwrite the level with the
mean square of the block (the C code then takes sqrtf; with len = 0
this is 0.0f/0.0f, a NaN, modelled by the rational junk value 0) and
run the loop. -/
def micCallback (pf : ℕ → AllocPlan) (S : MicState) (data : List ℤ) : ℤ × MicState :=
  if S.is_recording = false ∨ S.audio_buffer = none ∨ S.compressed_buffer = none then (0, S)
  else
    micLoop pf 0
      { S with current_level_sq := levelSumSq data / (data.length : ℚ) } data

/-! ## Control operations (lines 161-342) -/

/-- The WAV header of lines 61-75 and createWavHeader (lines 435-451);
the four constant 4-byte tags are omitted, the numeric fields are kept.
sizeof(WavHeader) is 44. -/
structure WavHeader where
  file_size : ℕ
  fmt_size : ℕ
  audio_format : ℕ
  num_channels : ℕ
  sample_rate : ℕ
  byte_rate : ℕ
  block_align : ℕ
  bits_per_sample : ℕ
  data_size : ℕ
deriving DecidableEq

/-- createWavHeader (lines 435-451). -/
def createWavHeader (num_samples : ℕ) : WavHeader :=
  { file_size := 44 - 8 + num_samples * 2
    fmt_size := 16
    audio_format := 1
    num_channels := 1
    sample_rate := SAMPLE_RATE_OUTPUT
    byte_rate := SAMPLE_RATE_OUTPUT * 1 * 2
    block_align := 1 * 2
    bits_per_sample := 16
    data_size := num_samples * 2 }

/-- mic_startRecording (lines 161-214).  raw_ok and comp_ok are the
outcomes of the two buffer allocations.  On success every pipeline
variable is reset as in lines 190-206 (the VAD frame contents are not
cleared, only its index; the chunk buffer is freed, and chunk_size is
cleared only when a chunk buffer existed, as in lines 202-206). -/
def mic_startRecording (raw_ok comp_ok : Bool) (S : MicState) : Bool × MicState :=
  if S.is_recording then (false, S)
  else if raw_ok = false then
    (false, { S with buffer_size := INITIAL_BUFFER_SAMPLES, audio_buffer := none })
  else if comp_ok = false then
    (false, { S with buffer_size := INITIAL_BUFFER_SAMPLES, audio_buffer := none,
                     compressed_buffer := none })
  else
    (true,
      { is_recording := true
        audio_buffer := some []
        compressed_buffer := some []
        buffer_size := INITIAL_BUFFER_SAMPLES
        buffer_position := 0
        compressed_position := 0
        current_level_sq := 0
        chunk_ready := false
        chunk_buffer := none
        chunk_size := if S.chunk_buffer.isSome then 0 else S.chunk_size
        chunk_sequence := 0
        vad_holdover := 0
        vad_enabled := S.vad_enabled
        vad_frame := S.vad_frame
        vad_frame_pos := 0
        sample_accumulator := 0
        accumulated_samples := 0
        sample_count := 0 })

/-- mic_stopRecording (lines 217-282).  wav_ok is the outcome of the
WAV buffer allocation.  Returns the WAV data (header plus the first
buffer_position committed raw samples) or none with the state after
the operation.  Note that current_level, chunk_ready and
chunk_sequence are not reset. -/
def mic_stopRecording (wav_ok : Bool) (S : MicState) :
    Option (WavHeader × List ℤ) × MicState :=
  if S.is_recording = false then (none, S)
  else
    let S1 : MicState := { S with is_recording := false }
    if S1.audio_buffer = none ∨ S1.buffer_position = 0 then
      (none, { S1 with audio_buffer := none, compressed_buffer := none })
    else if wav_ok = false then
      (none, { S1 with audio_buffer := none, compressed_buffer := none })
    else
      (some (createWavHeader S1.buffer_position,
             (S1.audio_buffer.getD []).take S1.buffer_position),
       { S1 with
         audio_buffer := none
         compressed_buffer := none
         buffer_size := 0
         buffer_position := 0
         compressed_position := 0
         chunk_buffer := none
         chunk_size := if S1.chunk_buffer.isSome then 0 else S1.chunk_size })

/-- mic_getLevel (lines 285-288): pushes current_level, the square
root the C code stored; always succeeds (it is a total function of
the state). -/
noncomputable def mic_getLevel (S : MicState) : ℝ :=
  Real.sqrt (S.current_level_sq : ℝ)

/-- The pristine process state: nothing recording, every pointer NULL,
every counter zero, VAD enabled (line 49), the frame ring
zero-initialised as a C file-scope array is. -/
def zeroState : MicState :=
  { is_recording := false
    audio_buffer := none
    compressed_buffer := none
    buffer_size := 0
    buffer_position := 0
    compressed_position := 0
    current_level_sq := 0
    chunk_ready := false
    chunk_buffer := none
    chunk_size := 0
    chunk_sequence := 0
    vad_holdover := 0
    vad_enabled := true
    vad_frame := List.replicate VAD_FRAME_SIZE 0
    vad_frame_pos := 0
    sample_accumulator := 0
    accumulated_samples := 0
    sample_count := 0 }

/-- The state at the start of a fresh recording. -/
def startState : MicState := (mic_startRecording true true zeroState).2

/-- Feeding a sequence of callback blocks, every allocation
succeeding. -/
def feedChunks (cs : List (List ℤ)) (S : MicState) : MicState :=
  cs.foldl (fun s c => (micCallback allOkf s c).2) S

/-- Modelled from the spec (section 4.1 of the specification): the
partition of a native input stream into the fractional output slots.
Carries the phase accumulator and the current partial slot; returns
the completed slots, the trailing partial slot and the final phase.
Used only to state averaging correctness against the code. -/
def slotSplitAux (acc : ℚ) (cur : List ℤ) : List ℤ → List (List ℤ) × List ℤ × ℚ
  | [] => ([], cur, acc)
  | x :: xs =>
    let a1 := acc + 1
    let cur1 := cur ++ [x]
    if DOWNSAMPLE_FACTOR ≤ a1 then
      let r := slotSplitAux (a1 - DOWNSAMPLE_FACTOR) [] xs
      (cur1 :: r.1, r.2)
    else slotSplitAux a1 cur1 xs

/-- The slot partition of a native stream from phase zero. -/
def slotSplit (xs : List ℤ) : List (List ℤ) × List ℤ × ℚ := slotSplitAux 0 [] xs

/-! ## Concrete states used to evaluate the claims -/

/-- A recording state just after a burst of speech: the holdover
counter is at its maximum, the VAD frame ring is full of silence, and
the converter is mid-stream. -/
def holdoverState : MicState :=
  { is_recording := true
    audio_buffer := some []
    compressed_buffer := some []
    buffer_size := 240000
    buffer_position := 0
    compressed_position := 0
    current_level_sq := 0
    chunk_ready := false
    chunk_buffer := none
    chunk_size := 0
    chunk_sequence := 0
    vad_holdover := 25
    vad_enabled := true
    vad_frame := List.replicate 160 0
    vad_frame_pos := 160
    sample_accumulator := 0
    accumulated_samples := 0
    sample_count := 0 }

/-- A recording state one raw sample before a chunk boundary, in which
the whole elapsed interval was classified silence (no compressed bytes)
and the gate is closed (holdover exhausted); the next emission lands
exactly on the boundary. -/
def silentBoundaryState : MicState :=
  { holdoverState with
    buffer_position := 239999
    chunk_sequence := 5
    vad_holdover := 0
    sample_accumulator := 5 }

/-- A recording state one raw sample before a chunk boundary with
compressed bytes accumulated and VAD disabled. -/
def byteBoundaryState : MicState :=
  { silentBoundaryState with
    compressed_position := 3
    compressed_buffer := some [1, 2, 3]
    vad_enabled := false }

/-- A recording state one raw sample before a chunk boundary while a
previously materialized chunk is still unclaimed. -/
def readyChunkState : MicState :=
  { byteBoundaryState with
    chunk_ready := true
    chunk_buffer := some [9]
    chunk_size := 1 }

/-- A recording state whose raw buffer is full, so that the next
emission forces a growth reallocation. -/
def growthFailState : MicState :=
  { holdoverState with
    buffer_size := 2
    buffer_position := 2
    audio_buffer := some [7, 8]
    sample_accumulator := 5 }

/-- A recording state carrying a nonzero level from the last block. -/
def levelOneState : MicState := { startState with current_level_sq := 1 }

/-- A per-iteration plan on which the raw buffer growth allocation
fails. -/
def failRawPlan : ℕ → AllocPlan := fun _ => ⟨false, true, true⟩

/-- A per-iteration plan on which the compressed buffer growth
allocation fails after the raw one succeeded. -/
def failCompPlan : ℕ → AllocPlan := fun _ => ⟨true, false, true⟩

/-- The cursor invariant of the segment buffer manager: the compressed
write cursor never exceeds the raw write cursor, and the raw write
cursor never exceeds the allocated capacity. -/
def cursorInv (S : MicState) : Prop :=
  S.compressed_position ≤ S.buffer_position ∧ S.buffer_position ≤ S.buffer_size

instance (S : MicState) : Decidable (cursorInv S) := by
  unfold cursorInv; infer_instance

/-! ## Basic preservation lemmas -/

theorem chunkCheck_audio_buffer (p : AllocPlan) (S : MicState) :
    (chunkCheck p S).audio_buffer = S.audio_buffer := by
  simp only [chunkCheck]; split_ifs <;> rfl

theorem chunkCheck_buffer_position (p : AllocPlan) (S : MicState) :
    (chunkCheck p S).buffer_position = S.buffer_position := by
  simp only [chunkCheck]; split_ifs <;> rfl

theorem chunkCheck_buffer_size (p : AllocPlan) (S : MicState) :
    (chunkCheck p S).buffer_size = S.buffer_size := by
  simp only [chunkCheck]; split_ifs <;> rfl

theorem chunkCheck_compressed_buffer (p : AllocPlan) (S : MicState) :
    (chunkCheck p S).compressed_buffer = S.compressed_buffer := by
  simp only [chunkCheck]; split_ifs <;> rfl

theorem chunkCheck_is_recording (p : AllocPlan) (S : MicState) :
    (chunkCheck p S).is_recording = S.is_recording := by
  simp only [chunkCheck]; split_ifs <;> rfl

theorem chunkCheck_ds (p : AllocPlan) (S : MicState) :
    dsOf (chunkCheck p S) = dsOf S := by
  simp only [chunkCheck, dsOf]; split_ifs <;> rfl

theorem chunkCheck_of_ready (p : AllocPlan) (S : MicState) (h : S.chunk_ready = true) :
    chunkCheck p S = S := by
  simp only [chunkCheck, h]; simp

theorem growCheck_some_shape (p : AllocPlan) (S S' : MicState)
    (h : growCheck p S = some S') :
    S' = { S with buffer_size := S'.buffer_size } := by
  simp only [growCheck] at h
  split_ifs at h <;> injection h with h <;> subst h <;> rfl

theorem emitSample_chunk_fields (S : MicState) :
    (emitSample S).chunk_ready = S.chunk_ready ∧
    (emitSample S).chunk_buffer = S.chunk_buffer ∧
    (emitSample S).chunk_size = S.chunk_size ∧
    (emitSample S).chunk_sequence = S.chunk_sequence := by
  simp only [emitSample]; split_ifs <;> simp

/-! ## Claim C4: the mu-law table versus the stated algorithm -/

/-- C4.  The claim states that every table entry, including the one
for s = -32768 whose magnitude must be clipped, equals the code
produced by the stated magnitude-clip-bias algorithm.  In the code the
magnitude is taken by an int16_t negation, so -(-32768) wraps back to
-32768, the clip never fires, and the entry at index 32768 is 0x7F
(the code of a near-zero negative sample) instead of the algorithm's
0x00 (maximal negative).  The code contradicts its own claim of
implementing ITU G.711, for which the claim's algorithm is correct. -/
theorem mulaw_table_min_int16_mismatch :
    toInt16 32768 = -32768 ∧
    mulaw_encode_table 32768 = 0x7F ∧
    mulawSpecCode (-32768) = 0x00 ∧
    mulaw_encode (-32768) = 0x7F ∧
    mulaw_encode_table 32768 ≠ mulawSpecCode (-32768) := by decide


/-! ## Claim C8: a zero-length block -/

set_option maxRecDepth 200000 in
/-- C8.  The claim states that a zero-sample block leaves the whole
pipeline state unchanged, including the current level.  In the code
the level is unconditionally recomputed as sqrtf(sum / len), which for
len = 0 is sqrtf(0.0f / 0.0f), a NaN: the level does change (the
rational model renders the junk quotient 0/0 as 0), refuting the
claim.  Every other component of the state is unchanged, and no output
sample is produced (the raw cursor and both tracks are untouched). -/
theorem zero_length_block_overwrites_level :
    (micCallback allOkf levelOneState []).1 = 1 ∧
    levelOneState.current_level_sq = 1 ∧
    (micCallback allOkf levelOneState []).2.current_level_sq = 0 ∧
    (micCallback allOkf levelOneState []).2 ≠ levelOneState ∧
    (micCallback allOkf levelOneState []).2.is_recording = levelOneState.is_recording ∧
    (micCallback allOkf levelOneState []).2.audio_buffer = levelOneState.audio_buffer ∧
    (micCallback allOkf levelOneState []).2.compressed_buffer = levelOneState.compressed_buffer ∧
    (micCallback allOkf levelOneState []).2.buffer_size = levelOneState.buffer_size ∧
    (micCallback allOkf levelOneState []).2.buffer_position = levelOneState.buffer_position ∧
    (micCallback allOkf levelOneState []).2.compressed_position = levelOneState.compressed_position ∧
    (micCallback allOkf levelOneState []).2.chunk_ready = levelOneState.chunk_ready ∧
    (micCallback allOkf levelOneState []).2.chunk_buffer = levelOneState.chunk_buffer ∧
    (micCallback allOkf levelOneState []).2.chunk_size = levelOneState.chunk_size ∧
    (micCallback allOkf levelOneState []).2.chunk_sequence = levelOneState.chunk_sequence ∧
    (micCallback allOkf levelOneState []).2.vad_holdover = levelOneState.vad_holdover ∧
    (micCallback allOkf levelOneState []).2.vad_enabled = levelOneState.vad_enabled ∧
    (micCallback allOkf levelOneState []).2.vad_frame = levelOneState.vad_frame ∧
    (micCallback allOkf levelOneState []).2.vad_frame_pos = levelOneState.vad_frame_pos ∧
    (micCallback allOkf levelOneState []).2.sample_accumulator = levelOneState.sample_accumulator ∧
    (micCallback allOkf levelOneState []).2.accumulated_samples = levelOneState.accumulated_samples ∧
    (micCallback allOkf levelOneState []).2.sample_count = levelOneState.sample_count := by
  have h1 : levelOneState.current_level_sq = 1 := by with_unfolding_all decide
  have h0 : (micCallback allOkf levelOneState []).2.current_level_sq = 0 := by
    with_unfolding_all decide
  refine ⟨by with_unfolding_all decide, h1, h0, fun he => ?_,
    by with_unfolding_all decide, by with_unfolding_all decide, by with_unfolding_all decide,
    by with_unfolding_all decide, by with_unfolding_all decide, by with_unfolding_all decide,
    by with_unfolding_all decide, by with_unfolding_all decide, by with_unfolding_all decide,
    by with_unfolding_all decide, by with_unfolding_all decide, by with_unfolding_all decide,
    by with_unfolding_all decide, by with_unfolding_all decide, by with_unfolding_all decide,
    by with_unfolding_all decide, by with_unfolding_all decide⟩
  rw [he, h1] at h0
  norm_num at h0

/-! ## Claim C5: chunk boundary determinism -/

set_option maxRecDepth 100000 in
/-- C5 counterexample.  The claim states that reaching a chunk
boundary with no pending chunk always materializes exactly one chunk
and increments the sequence counter, for all VAD outcomes including an
all-silence interval.  From silentBoundaryState (no compressed bytes,
gate closed), the emission that lands the raw cursor exactly on the
240000-sample boundary produces no chunk and leaves the sequence
counter unchanged, because chunk_size = compressed_position = 0. -/
theorem chunk_boundary_all_silence_no_chunk :
    silentBoundaryState.chunk_ready = false ∧
    (stepSample allOk silentBoundaryState 0).2.buffer_position = 240000 ∧
    (stepSample allOk silentBoundaryState 0).2.buffer_position % CHUNK_SAMPLES = 0 ∧
    (stepSample allOk silentBoundaryState 0).2.chunk_ready = false ∧
    (stepSample allOk silentBoundaryState 0).2.chunk_sequence =
      silentBoundaryState.chunk_sequence := by with_unfolding_all decide

/-! ## Claim C3: VAD holdover granularity -/

set_option maxRecDepth 200000 in
set_option maxHeartbeats 4000000 in
/-- C3.  The claim (and the comments of the code itself, which say the
holdover keeps about 500 ms, i.e. 25 frames of 160 samples) states
that the speech decision is made once per completed 160-sample frame
and that holdover lasts VAD_HOLDOVER_FRAMES frames.  The code instead
calls frame_has_speech for every downsampled sample once the ring has
filled, decrementing the holdover once per sample: from holdoverState
(holdover at its maximum 25, silent frame ring) feeding 150 native
zeros produces 27 downsampled samples of which only the first 25 reach
the compressed track; the holdover is exhausted after 25 samples
(about 3 ms), not 25 frames (4000 samples). -/
theorem vad_holdover_expires_after_25_samples :
    holdoverState.vad_holdover = VAD_HOLDOVER_FRAMES ∧
    (micCallback allOkf holdoverState (List.replicate 150 0)).2.buffer_position = 27 ∧
    (micCallback allOkf holdoverState (List.replicate 150 0)).2.compressed_position = 25 ∧
    (micCallback allOkf holdoverState (List.replicate 150 0)).2.vad_holdover = 0 := by
  with_unfolding_all decide

/-! ## Claim C6: at most one pending chunk -/

/-- C6.  While a previously materialized chunk is unclaimed
(chunk_ready set), no step of the callback loop materializes a new
chunk, changes the sequence counter, or touches the pending chunk's
bytes: the boundary block of lines 411-428 is guarded by !chunk_ready
and nothing else writes the chunk fields. -/
theorem pending_chunk_preserved (p : AllocPlan) (S : MicState) (x : ℤ)
    (h : S.chunk_ready = true) :
    (stepSample p S x).2.chunk_ready = true ∧
    (stepSample p S x).2.chunk_buffer = S.chunk_buffer ∧
    (stepSample p S x).2.chunk_size = S.chunk_size ∧
    (stepSample p S x).2.chunk_sequence = S.chunk_sequence := by
  simp only [stepSample]
  split_ifs with hc
  · rcases hg : growCheck p { S with
        sample_accumulator := S.sample_accumulator + 1
        accumulated_samples := S.accumulated_samples + (x : ℚ)
        sample_count := S.sample_count + 1 } with _ | S2
    · simpa using h
    · dsimp only
      have hshape := growCheck_some_shape _ _ _ hg
      have hready : S2.chunk_ready = true := by rw [hshape]; exact h
      have hbuf : S2.chunk_buffer = S.chunk_buffer := by rw [hshape]
      have hsize : S2.chunk_size = S.chunk_size := by rw [hshape]
      have hseq : S2.chunk_sequence = S.chunk_sequence := by rw [hshape]
      have hemit := emitSample_chunk_fields S2
      have hcc := chunkCheck_of_ready p (emitSample S2) (hemit.1.trans hready)
      rw [hcc]
      exact ⟨hemit.1.trans hready, hemit.2.1.trans hbuf, hemit.2.2.1.trans hsize,
        hemit.2.2.2.trans hseq⟩
  · have hcc := chunkCheck_of_ready p { S with
        sample_accumulator := S.sample_accumulator + 1
        accumulated_samples := S.accumulated_samples + (x : ℚ)
        sample_count := S.sample_count + 1 } h
    rw [hcc]
    exact ⟨h, rfl, rfl, rfl⟩

/-- Witness for pending_chunk_preserved: from readyChunkState, whose
pending chunk holds the byte 9, the boundary-crossing emission leaves
the pending chunk untouched. -/
theorem pending_chunk_preserved_witness :
    readyChunkState.chunk_ready = true ∧
    (stepSample allOk readyChunkState 0).2.chunk_ready = true ∧
    (stepSample allOk readyChunkState 0).2.chunk_buffer = readyChunkState.chunk_buffer ∧
    (stepSample allOk readyChunkState 0).2.chunk_size = readyChunkState.chunk_size ∧
    (stepSample allOk readyChunkState 0).2.chunk_sequence = readyChunkState.chunk_sequence :=
  ⟨by decide, pending_chunk_preserved allOk readyChunkState 0 (by decide)⟩

/-! ## More field lemmas for the emission path -/

theorem emitSample_buffer_position (S : MicState) :
    (emitSample S).buffer_position = S.buffer_position + 1 := by
  simp only [emitSample]; split_ifs <;> rfl

theorem emitSample_buffer_size (S : MicState) :
    (emitSample S).buffer_size = S.buffer_size := by
  simp only [emitSample]; split_ifs <;> rfl

theorem emitSample_chunk_ready (S : MicState) :
    (emitSample S).chunk_ready = S.chunk_ready := by
  simp only [emitSample]; split_ifs <;> rfl

theorem emitSample_compressed_position_lb (S : MicState) :
    S.compressed_position ≤ (emitSample S).compressed_position := by
  simp only [emitSample]; split_ifs <;> simp

theorem emitSample_compressed_position_ub (S : MicState) :
    (emitSample S).compressed_position ≤ S.compressed_position + 1 := by
  simp only [emitSample]; split_ifs <;> simp

theorem chunkCheck_compressed_cases (p : AllocPlan) (S : MicState) :
    (chunkCheck p S).compressed_position = 0 ∨
    (chunkCheck p S).compressed_position = S.compressed_position := by
  simp only [chunkCheck]
  split_ifs <;> first
    | exact Or.inl rfl
    | exact Or.inr rfl

theorem growCheck_no_growth (p : AllocPlan) (S : MicState)
    (h : S.buffer_position < S.buffer_size) : growCheck p S = some S := by
  unfold growCheck
  rw [if_neg (by omega)]

theorem growCheck_fail (p : AllocPlan) (S : MicState)
    (hfull : S.buffer_size ≤ S.buffer_position)
    (hfail : p.grow_raw_ok = false ∨ p.grow_comp_ok = false) :
    growCheck p S = none := by
  unfold growCheck
  rcases hr : p.grow_raw_ok with _ | _ <;> rcases hc : p.grow_comp_ok with _ | _ <;>
    simp_all

theorem growCheck_some_bounds (p : AllocPlan) (S S' : MicState)
    (hinv : S.buffer_position ≤ S.buffer_size)
    (h : growCheck p S = some S') :
    S'.buffer_position < S'.buffer_size := by
  have hposG : 0 < BUFFER_GROW_SAMPLES := by decide
  simp only [growCheck] at h
  split_ifs at h <;> injection h with h <;> subst h <;>
    (try simp only [MicState.buffer_position, MicState.buffer_size]) <;> omega

theorem chunkCheck_fires (p : AllocPlan) (S : MicState)
    (h1 : 0 < S.buffer_position)
    (h2 : S.buffer_position % CHUNK_SAMPLES = 0)
    (h3 : S.chunk_ready = false)
    (h4 : 0 < S.compressed_position)
    (h5 : p.chunk_ok = true) :
    (chunkCheck p S).chunk_ready = true ∧
    (chunkCheck p S).chunk_sequence = S.chunk_sequence + 1 ∧
    (chunkCheck p S).compressed_position = 0 ∧
    (chunkCheck p S).chunk_size = S.compressed_position ∧
    (chunkCheck p S).chunk_buffer =
      some ((S.compressed_buffer.getD []).take S.compressed_position) := by
  simp only [chunkCheck]
  split_ifs <;> first
    | exact ⟨rfl, rfl, rfl, rfl, rfl⟩
    | simp_all

/-! ## Claim C5, amended: chunk boundary materialization -/

/-- C5, amended.  When an emission lands the raw cursor exactly on a
chunk boundary with no pending chunk, the compressed track nonempty
and the chunk allocation succeeding, exactly one chunk is published:
the ready flag is set, the sequence counter is incremented by exactly
1, the chunk is the accumulated compressed bytes, and the compressed
cursor is reset for the next interval.  (When the whole interval was
silence or the allocation fails, no chunk is produced and the sequence
is unchanged; see the counterexample.) -/
theorem chunk_boundary_materializes_once (p : AllocPlan) (S : MicState) (x : ℤ)
    (hready : S.chunk_ready = false)
    (hroom : S.buffer_position < S.buffer_size)
    (hemit : DOWNSAMPLE_FACTOR ≤ S.sample_accumulator + 1)
    (hbound : (S.buffer_position + 1) % CHUNK_SAMPLES = 0)
    (hbytes : 0 < S.compressed_position)
    (hchunk : p.chunk_ok = true) :
    (stepSample p S x).1 = true ∧
    (stepSample p S x).2.chunk_ready = true ∧
    (stepSample p S x).2.chunk_sequence = S.chunk_sequence + 1 ∧
    (stepSample p S x).2.compressed_position = 0 := by
  have hstep : stepSample p S x =
      (true, chunkCheck p (emitSample { S with
        sample_accumulator := S.sample_accumulator + 1
        accumulated_samples := S.accumulated_samples + (x : ℚ)
        sample_count := S.sample_count + 1 })) := by
    unfold stepSample
    rw [if_pos hemit, growCheck_no_growth p { S with
      sample_accumulator := S.sample_accumulator + 1
      accumulated_samples := S.accumulated_samples + (x : ℚ)
      sample_count := S.sample_count + 1 } hroom]
  set S1 : MicState := { S with
    sample_accumulator := S.sample_accumulator + 1
    accumulated_samples := S.accumulated_samples + (x : ℚ)
    sample_count := S.sample_count + 1 } with hS1
  have hE1 : (emitSample S1).buffer_position = S.buffer_position + 1 := by
    rw [emitSample_buffer_position]
  have hE2 : (emitSample S1).chunk_ready = false := by
    rw [emitSample_chunk_ready]; exact hready
  have hE3 : 0 < (emitSample S1).compressed_position :=
    lt_of_lt_of_le hbytes (emitSample_compressed_position_lb S1)
  have hE4 : (emitSample S1).chunk_sequence = S.chunk_sequence :=
    (emitSample_chunk_fields S1).2.2.2
  have hfire := chunkCheck_fires p (emitSample S1)
    (by rw [hE1]; omega) (by rw [hE1]; exact hbound) hE2 hE3 hchunk
  rw [hstep]
  exact ⟨rfl, hfire.1, by rw [hfire.2.1, hE4], hfire.2.2.1⟩

/-- Witness for chunk_boundary_materializes_once: from
byteBoundaryState (three compressed bytes pending, cursor at 239999)
the boundary emission publishes the chunk and bumps the sequence from
5 to 6. -/
theorem chunk_boundary_materializes_once_witness :
    (stepSample allOk byteBoundaryState 0).1 = true ∧
    (stepSample allOk byteBoundaryState 0).2.chunk_ready = true ∧
    (stepSample allOk byteBoundaryState 0).2.chunk_sequence =
      byteBoundaryState.chunk_sequence + 1 ∧
    (stepSample allOk byteBoundaryState 0).2.compressed_position = 0 :=
  chunk_boundary_materializes_once allOk byteBoundaryState 0 (by decide)
    (by decide) (by with_unfolding_all decide) (by decide) (by decide) (by decide)

/-! ## Claim C9: growth failure -/

theorem stepSample_growth_fail (p : AllocPlan) (S : MicState) (x : ℤ)
    (hemit : DOWNSAMPLE_FACTOR ≤ S.sample_accumulator + 1)
    (hfull : S.buffer_size ≤ S.buffer_position)
    (hfail : p.grow_raw_ok = false ∨ p.grow_comp_ok = false) :
    stepSample p S x = (false, { S with
      sample_accumulator := S.sample_accumulator + 1
      accumulated_samples := S.accumulated_samples + (x : ℚ)
      sample_count := S.sample_count + 1 }) := by
  unfold stepSample
  rw [if_pos hemit, growCheck_fail p { S with
    sample_accumulator := S.sample_accumulator + 1
    accumulated_samples := S.accumulated_samples + (x : ℚ)
    sample_count := S.sample_count + 1 } hfull hfail]

/-- C9.  If buffer growth fails inside the callback (either the raw or
the compressed reallocation returning NULL), the callback returns the
stop-processing signal 0, every raw sample committed before the
failure is unchanged, the raw cursor is unchanged, the recording flag
is still set, and stopping afterwards still returns the WAV container
of all audio captured up to the failure. -/
theorem growth_failure_halts_preserving_audio
    (pf : ℕ → AllocPlan) (S : MicState) (x : ℤ) (rest : List ℤ) (a : List ℤ)
    (hrec : S.is_recording = true)
    (haud : S.audio_buffer = some a)
    (hcomp : S.compressed_buffer ≠ none)
    (hfull : S.buffer_size ≤ S.buffer_position)
    (hpos : 0 < S.buffer_position)
    (hemit : DOWNSAMPLE_FACTOR ≤ S.sample_accumulator + 1)
    (hfail : (pf 0).grow_raw_ok = false ∨ (pf 0).grow_comp_ok = false) :
    (micCallback pf S (x :: rest)).1 = 0 ∧
    (micCallback pf S (x :: rest)).2.is_recording = true ∧
    (micCallback pf S (x :: rest)).2.audio_buffer = some a ∧
    (micCallback pf S (x :: rest)).2.buffer_position = S.buffer_position ∧
    (mic_stopRecording true (micCallback pf S (x :: rest)).2).1 =
      some (createWavHeader S.buffer_position, a.take S.buffer_position) := by
  have hguard : ¬(S.is_recording = false ∨ S.audio_buffer = none ∨
      S.compressed_buffer = none) := by
    push_neg
    exact ⟨by simp [hrec], by simp [haud], hcomp⟩
  have hcb : micCallback pf S (x :: rest) = (0, { S with
      current_level_sq := levelSumSq (x :: rest) / ((x :: rest).length : ℚ)
      sample_accumulator := S.sample_accumulator + 1
      accumulated_samples := S.accumulated_samples + (x : ℚ)
      sample_count := S.sample_count + 1 }) := by
    unfold micCallback
    rw [if_neg hguard]
    have hs := stepSample_growth_fail (pf 0)
      { S with current_level_sq := levelSumSq (x :: rest) / ((x :: rest).length : ℚ) }
      x hemit hfull hfail
    unfold micLoop
    rw [hs]
    rfl
  rw [hcb]
  refine ⟨rfl, hrec, haud, rfl, ?_⟩
  unfold mic_stopRecording
  rw [if_neg (by simp [hrec])]
  rw [if_neg (by simp [haud]; omega)]
  rw [if_neg (by simp)]
  simp [haud]

/-- Witness for growth_failure_halts_preserving_audio: from
growthFailState (two committed samples 7 and 8, buffer full) with the
raw growth allocation failing, the callback returns 0 and stop still
returns the WAV container of the two samples. -/
theorem growth_failure_halts_preserving_audio_witness :
    (micCallback failRawPlan growthFailState [9, 10]).1 = 0 ∧
    (micCallback failRawPlan growthFailState [9, 10]).2.is_recording = true ∧
    (micCallback failRawPlan growthFailState [9, 10]).2.audio_buffer = some [7, 8] ∧
    (micCallback failRawPlan growthFailState [9, 10]).2.buffer_position =
      growthFailState.buffer_position ∧
    (mic_stopRecording true (micCallback failRawPlan growthFailState [9, 10]).2).1 =
      some (createWavHeader growthFailState.buffer_position,
            ([7, 8] : List ℤ).take growthFailState.buffer_position) :=
  growth_failure_halts_preserving_audio failRawPlan growthFailState 9 [10] [7, 8]
    (by decide) (by decide) (by decide) (by decide) (by decide)
    (by with_unfolding_all decide) (Or.inl (by decide))

/-! ## Claim C10: the cursor invariant -/

/-- Any property preserved by every loop step is preserved by the
whole callback loop. -/
theorem micLoop_preserves (P : MicState → Prop)
    (hstep : ∀ p S x, P S → P (stepSample p S x).2) :
    ∀ (xs : List ℤ) (pf : ℕ → AllocPlan) (k : ℕ) (S : MicState),
      P S → P (micLoop pf k S xs).2 := by
  intro xs
  induction xs with
  | nil => intro pf k S hS; exact hS
  | cons x rest ih =>
    intro pf k S hS
    unfold micLoop
    rcases hr : (stepSample (pf k) S x).1 with _ | _
    · simp only [hr]
      exact hstep (pf k) S x hS
    · simp only [hr]
      exact ih pf (k + 1) _ (hstep (pf k) S x hS)

theorem stepSample_cursorInv (p : AllocPlan) (S : MicState) (x : ℤ)
    (h : cursorInv S) : cursorInv (stepSample p S x).2 := by
  obtain ⟨h1, h2⟩ := h
  unfold cursorInv
  simp only [stepSample]
  split_ifs with hc
  · rcases hg : growCheck p { S with
        sample_accumulator := S.sample_accumulator + 1
        accumulated_samples := S.accumulated_samples + (x : ℚ)
        sample_count := S.sample_count + 1 } with _ | S2
    · exact ⟨h1, h2⟩
    · have hshape := growCheck_some_shape _ _ _ hg
      have hcp : S2.compressed_position = S.compressed_position := by rw [hshape]
      have hbp : S2.buffer_position = S.buffer_position := by rw [hshape]
      have hlt : S2.buffer_position < S2.buffer_size :=
        growCheck_some_bounds p _ S2 (by exact h2) hg
      have hE1 : (emitSample S2).buffer_position = S2.buffer_position + 1 :=
        emitSample_buffer_position S2
      have hE2 : (emitSample S2).buffer_size = S2.buffer_size :=
        emitSample_buffer_size S2
      have hE3 : (emitSample S2).compressed_position ≤ S2.compressed_position + 1 :=
        emitSample_compressed_position_ub S2
      have hC1 := chunkCheck_compressed_cases p (emitSample S2)
      have hC2 := chunkCheck_buffer_position p (emitSample S2)
      have hC3 := chunkCheck_buffer_size p (emitSample S2)
      constructor
      · rcases hC1 with hcz | hcs
        · rw [hcz]; omega
        · rw [hcs, hC2, hE1]; omega
      · rw [hC2, hC3, hE1, hE2]; omega
  · have hC1 := chunkCheck_compressed_cases p { S with
        sample_accumulator := S.sample_accumulator + 1
        accumulated_samples := S.accumulated_samples + (x : ℚ)
        sample_count := S.sample_count + 1 }
    have hC2 := chunkCheck_buffer_position p { S with
        sample_accumulator := S.sample_accumulator + 1
        accumulated_samples := S.accumulated_samples + (x : ℚ)
        sample_count := S.sample_count + 1 }
    have hC3 := chunkCheck_buffer_size p { S with
        sample_accumulator := S.sample_accumulator + 1
        accumulated_samples := S.accumulated_samples + (x : ℚ)
        sample_count := S.sample_count + 1 }
    constructor
    · rcases hC1 with hcz | hcs
      · rw [hcz]; omega
      · rw [hcs, hC2]; exact h1
    · rw [hC2, hC3]; exact h2

/-- C10.  The compressed write cursor never exceeds the raw write
cursor, and the raw write cursor never exceeds the allocated capacity:
the invariant holds at the start of a recording, is preserved by every
loop step and by every whole callback invocation, and the growth check
performed before each output sample leaves both write positions
strictly below the (possibly grown) capacity, so every raw and
compressed byte is written in bounds. -/
theorem compressed_cursor_in_bounds :
    cursorInv startState ∧
    (∀ (p : AllocPlan) (S : MicState) (x : ℤ),
      cursorInv S → cursorInv (stepSample p S x).2) ∧
    (∀ (pf : ℕ → AllocPlan) (S : MicState) (data : List ℤ),
      cursorInv S → cursorInv (micCallback pf S data).2) ∧
    (∀ (p : AllocPlan) (S1 S2 : MicState),
      cursorInv S1 → growCheck p S1 = some S2 →
      S2.buffer_position < S2.buffer_size ∧
      S2.compressed_position < S2.buffer_size) := by
  refine ⟨by decide, stepSample_cursorInv, ?_, ?_⟩
  · intro pf S data h
    unfold micCallback
    split_ifs with hg
    · exact h
    · exact micLoop_preserves cursorInv stepSample_cursorInv data pf 0 _ h
  · intro p S1 S2 h hg
    obtain ⟨ha, hb2⟩ := h
    have hb := growCheck_some_bounds p S1 S2 hb2 hg
    have hshape := growCheck_some_shape _ _ _ hg
    have hcp : S2.compressed_position = S1.compressed_position := by rw [hshape]
    have hbp : S2.buffer_position = S1.buffer_position := by rw [hshape]
    exact ⟨hb, by rw [hcp]; rw [hbp] at hb; omega⟩

/-- Witness for compressed_cursor_in_bounds: the invariant holds at
growthFailState and is preserved by a callback on it with failing
growth. -/
theorem compressed_cursor_in_bounds_witness :
    cursorInv growthFailState ∧
    cursorInv (micCallback failRawPlan growthFailState [9, 10]).2 :=
  ⟨by decide,
   compressed_cursor_in_bounds.2.2.1 failRawPlan growthFailState [9, 10] (by decide)⟩

/-! ## Claim C7: getLevel -/

theorem emitSample_level (S : MicState) :
    (emitSample S).current_level_sq = S.current_level_sq := by
  simp only [emitSample]; split_ifs <;> rfl

theorem chunkCheck_level (p : AllocPlan) (S : MicState) :
    (chunkCheck p S).current_level_sq = S.current_level_sq := by
  simp only [chunkCheck]; split_ifs <;> rfl

theorem stepSample_level (p : AllocPlan) (S : MicState) (x : ℤ) :
    (stepSample p S x).2.current_level_sq = S.current_level_sq := by
  simp only [stepSample]
  split_ifs with hc
  · rcases hg : growCheck p { S with
        sample_accumulator := S.sample_accumulator + 1
        accumulated_samples := S.accumulated_samples + (x : ℚ)
        sample_count := S.sample_count + 1 } with _ | S2
    · rfl
    · have hshape := growCheck_some_shape _ _ _ hg
      have hl : S2.current_level_sq = S.current_level_sq := by rw [hshape]
      rw [chunkCheck_level, emitSample_level, hl]
  · rw [chunkCheck_level]

theorem levelSumSq_foldl_bounds (data : List ℤ)
    (hr : ∀ y ∈ data, -32768 ≤ y ∧ y ≤ 32768) :
    ∀ a : ℚ,
      a ≤ List.foldl
        (fun (acc : ℚ) (x : ℤ) => acc + ((x : ℚ) / 32768) * ((x : ℚ) / 32768)) a data ∧
      List.foldl
        (fun (acc : ℚ) (x : ℤ) => acc + ((x : ℚ) / 32768) * ((x : ℚ) / 32768)) a data ≤
        a + data.length := by
  induction data with
  | nil => intro a; simp
  | cons x rest ih =>
    intro a
    obtain ⟨hx1, hx2⟩ := hr x (List.mem_cons_self x rest)
    have hq1 : (-32768 : ℚ) ≤ (x : ℚ) := by exact_mod_cast hx1
    have hq2 : (x : ℚ) ≤ 32768 := by exact_mod_cast hx2
    have hrr : ∀ y ∈ rest, -32768 ≤ y ∧ y ≤ 32768 := fun y hy =>
      hr y (List.mem_cons_of_mem x hy)
    have ht1 : -1 ≤ (x : ℚ) / 32768 := by
      rw [le_div_iff₀ (by norm_num : (0:ℚ) < 32768)]
      linarith
    have ht2 : (x : ℚ) / 32768 ≤ 1 := by
      rw [div_le_one (by norm_num : (0:ℚ) < 32768)]
      linarith
    have hsq1 : 0 ≤ ((x : ℚ) / 32768) * ((x : ℚ) / 32768) := mul_self_nonneg _
    have hsq2 : ((x : ℚ) / 32768) * ((x : ℚ) / 32768) ≤ 1 := by nlinarith
    have hih := ih hrr (a + ((x : ℚ) / 32768) * ((x : ℚ) / 32768))
    simp only [List.foldl_cons, List.length_cons]
    push_cast
    constructor
    · linarith [hih.1]
    · linarith [hih.2]

/-- C7 counterexample.  The claim states that getLevel returns 0
whenever no recording is active, in particular after a stop.  The code
never resets current_level on stop: after recording one full-scale
sample (RMS 1) and stopping, getLevel still returns 1, not 0. -/
theorem getLevel_nonzero_after_stop :
    (mic_stopRecording true (micCallback allOkf startState [-32768]).2).2.is_recording
      = false ∧
    mic_getLevel (mic_stopRecording true (micCallback allOkf startState [-32768]).2).2
      = 1 ∧
    mic_getLevel (mic_stopRecording true (micCallback allOkf startState [-32768]).2).2
      ≠ 0 := by
  have hrec : (mic_stopRecording true
      (micCallback allOkf startState [-32768]).2).2.is_recording = false := by
    with_unfolding_all decide
  have hlvl : (mic_stopRecording true
      (micCallback allOkf startState [-32768]).2).2.current_level_sq = 1 := by
    with_unfolding_all decide
  have h1 : mic_getLevel
      (mic_stopRecording true (micCallback allOkf startState [-32768]).2).2 = 1 := by
    unfold mic_getLevel
    rw [hlvl]
    push_cast
    exact Real.sqrt_one
  exact ⟨hrec, h1, by rw [h1]; exact one_ne_zero⟩

/-- C7, amended.  getLevel is a total function of the state (it always
succeeds) and returns the square root of the most recently stored mean
square: stopping preserves it (so after a stop it reports the last
block's level, not 0), a successful start resets it to 0, and during a
recording each callback stores the mean square of the incoming block,
whose root is a normalized RMS value in the interval from 0 to 1 for
16-bit blocks. -/
theorem getLevel_reports_stored_level (S : MicState) (w : Bool)
    (pf : ℕ → AllocPlan) (data : List ℤ) :
    mic_getLevel (mic_stopRecording w S).2 = mic_getLevel S ∧
    (S.is_recording = false →
      (mic_startRecording true true S).2.current_level_sq = 0) ∧
    (S.is_recording = true → S.audio_buffer ≠ none → S.compressed_buffer ≠ none →
      (micCallback pf S data).2.current_level_sq =
        levelSumSq data / (data.length : ℚ)) ∧
    (S.is_recording = true → S.audio_buffer ≠ none → S.compressed_buffer ≠ none →
      data ≠ [] → (∀ y ∈ data, -32768 ≤ y ∧ y ≤ 32768) →
      0 ≤ mic_getLevel (micCallback pf S data).2 ∧
      mic_getLevel (micCallback pf S data).2 ≤ 1) := by
  have hstop : (mic_stopRecording w S).2.current_level_sq = S.current_level_sq := by
    simp only [mic_stopRecording]
    split_ifs <;> rfl
  have hcb : S.is_recording = true → S.audio_buffer ≠ none →
      S.compressed_buffer ≠ none →
      (micCallback pf S data).2.current_level_sq =
        levelSumSq data / (data.length : ℚ) := by
    intro h1 h2 h3
    unfold micCallback
    rw [if_neg (by push_neg; exact ⟨by simp [h1], h2, h3⟩)]
    have := micLoop_preserves
      (fun T => T.current_level_sq = levelSumSq data / (data.length : ℚ))
      (fun p T x hT => by simp only [stepSample_level]; exact hT)
      data pf 0
      { S with current_level_sq := levelSumSq data / (data.length : ℚ) }
      rfl
    exact this
  refine ⟨by unfold mic_getLevel; rw [hstop], ?_, hcb, ?_⟩
  · intro h
    unfold mic_startRecording
    rw [if_neg (by simp [h])]
    rfl
  · intro h1 h2 h3 hne hr
    have hlen : 0 < (data.length : ℚ) := by
      have : 0 < data.length := List.length_pos.mpr hne
      exact_mod_cast this
    have hb := levelSumSq_foldl_bounds data hr 0
    have hs0 : 0 ≤ levelSumSq data := by
      have := hb.1
      simpa [levelSumSq] using this
    have hs1 : levelSumSq data ≤ data.length := by
      have := hb.2
      simpa [levelSumSq] using this
    have hq0 : 0 ≤ levelSumSq data / (data.length : ℚ) := by positivity
    have hq1 : levelSumSq data / (data.length : ℚ) ≤ 1 := by
      rw [div_le_one hlen]
      exact hs1
    unfold mic_getLevel
    rw [hcb h1 h2 h3]
    constructor
    · exact Real.sqrt_nonneg _
    · have hcast : ((levelSumSq data / (data.length : ℚ) : ℚ) : ℝ) ≤ 1 := by
        exact_mod_cast hq1
      have hs := Real.sqrt_le_sqrt hcast
      rwa [Real.sqrt_one] at hs

/-! ## The correspondence between the callback loop and the pure rate
converter -/

theorem emitSample_audio (S : MicState) :
    (emitSample S).audio_buffer = S.audio_buffer.map
      (fun l => l ++ [toInt16 (ratTrunc (S.accumulated_samples / (S.sample_count : ℚ)))]) := by
  simp only [emitSample]; split_ifs <;> rfl

theorem emitSample_ds (S : MicState) :
    dsOf (emitSample S) = ⟨S.sample_accumulator - DOWNSAMPLE_FACTOR, 0, 0⟩ := by
  simp only [emitSample, dsOf]

theorem emitSample_is_recording (S : MicState) :
    (emitSample S).is_recording = S.is_recording := by
  simp only [emitSample]; split_ifs <;> rfl

theorem emitSample_compressed_ne (S : MicState) (h : S.compressed_buffer ≠ none) :
    (emitSample S).compressed_buffer ≠ none := by
  have hshape : (emitSample S).compressed_buffer = S.compressed_buffer ∨
      (emitSample S).compressed_buffer = S.compressed_buffer.map
        (fun c => c ++ [mulaw_encode
          (toInt16 (ratTrunc (S.accumulated_samples / (S.sample_count : ℚ))))]) := by
    simp only [emitSample]
    split_ifs <;> first
      | exact Or.inl rfl
      | exact Or.inr rfl
  rcases hshape with hs | hs <;> rw [hs]
  · exact h
  · simpa using h

theorem growCheck_allOk (S : MicState) :
    ∃ S2, growCheck allOk S = some S2 ∧ S2 = { S with buffer_size := S2.buffer_size } := by
  by_cases hfull : S.buffer_size ≤ S.buffer_position
  · refine ⟨{ S with buffer_size := S.buffer_size + BUFFER_GROW_SAMPLES }, ?_, rfl⟩
    unfold growCheck
    rw [if_pos hfull]
    rfl
  · refine ⟨S, ?_, rfl⟩
    unfold growCheck
    rw [if_neg hfull]

theorem micLoop_cons (pf : ℕ → AllocPlan) (k : ℕ) (S : MicState) (x : ℤ)
    (rest : List ℤ) (h : (stepSample (pf k) S x).1 = true) :
    micLoop pf k S (x :: rest) = micLoop pf (k + 1) (stepSample (pf k) S x).2 rest := by
  simp [micLoop, h]

theorem downsampleRun_cons_none (d : DownsampleState) (x : ℤ) (xs : List ℤ)
    (h : (downsampleStep d x).1 = none) :
    downsampleRun d (x :: xs) = downsampleRun (downsampleStep d x).2 xs := by
  simp only [downsampleRun, h]

theorem downsampleRun_cons_some (d : DownsampleState) (x : ℤ) (xs : List ℤ) (v : ℤ)
    (h : (downsampleStep d x).1 = some v) :
    downsampleRun d (x :: xs) =
      (v :: (downsampleRun (downsampleStep d x).2 xs).1,
       (downsampleRun (downsampleStep d x).2 xs).2) := by
  simp only [downsampleRun, h]

/-- One loop step under the always-succeeding allocation plan refines
one pure rate converter step: the loop never aborts, the recording
guards are preserved, and the raw track, downsampling state and raw
cursor evolve exactly as the pure converter says (VAD and chunking
never touch them). -/
theorem stepSample_allOk (S : MicState) (x : ℤ) (a : List ℤ)
    (h1 : S.is_recording = true) (h2 : S.audio_buffer = some a)
    (h3 : S.compressed_buffer ≠ none) :
    (stepSample allOk S x).1 = true ∧
    (stepSample allOk S x).2.is_recording = true ∧
    (stepSample allOk S x).2.compressed_buffer ≠ none ∧
    ((downsampleStep (dsOf S) x).1 = none →
      (stepSample allOk S x).2.audio_buffer = some a ∧
      dsOf (stepSample allOk S x).2 = (downsampleStep (dsOf S) x).2 ∧
      (stepSample allOk S x).2.buffer_position = S.buffer_position) ∧
    (∀ v, (downsampleStep (dsOf S) x).1 = some v →
      (stepSample allOk S x).2.audio_buffer = some (a ++ [v]) ∧
      dsOf (stepSample allOk S x).2 = (downsampleStep (dsOf S) x).2 ∧
      (stepSample allOk S x).2.buffer_position = S.buffer_position + 1) := by
  by_cases hc : DOWNSAMPLE_FACTOR ≤ S.sample_accumulator + 1
  · obtain ⟨S2, hg, hshape⟩ := growCheck_allOk { S with
      sample_accumulator := S.sample_accumulator + 1
      accumulated_samples := S.accumulated_samples + (x : ℚ)
      sample_count := S.sample_count + 1 }
    have hstep : stepSample allOk S x = (true, chunkCheck allOk (emitSample S2)) := by
      unfold stepSample
      rw [if_pos (show DOWNSAMPLE_FACTOR ≤ ({ S with
        sample_accumulator := S.sample_accumulator + 1
        accumulated_samples := S.accumulated_samples + (x : ℚ)
        sample_count := S.sample_count + 1 } : MicState).sample_accumulator from hc), hg]
    have hds : downsampleStep (dsOf S) x =
        (some (toInt16 (ratTrunc ((S.accumulated_samples + (x : ℚ)) / ((S.sample_count + 1 : ℕ) : ℚ)))),
         ⟨S.sample_accumulator + 1 - DOWNSAMPLE_FACTOR, 0, 0⟩) := by
      unfold downsampleStep dsOf
      rw [if_pos hc]
    have hrec2 : S2.is_recording = S.is_recording := by rw [hshape]
    have haud2 : S2.audio_buffer = S.audio_buffer := by rw [hshape]
    have hcomp2 : S2.compressed_buffer = S.compressed_buffer := by rw [hshape]
    have hbp2 : S2.buffer_position = S.buffer_position := by rw [hshape]
    have hacc2 : S2.sample_accumulator = S.sample_accumulator + 1 := by rw [hshape]
    have hsum2 : S2.accumulated_samples = S.accumulated_samples + (x : ℚ) := by rw [hshape]
    have hcnt2 : S2.sample_count = S.sample_count + 1 := by rw [hshape]
    refine ⟨by rw [hstep], ?_, ?_, ?_, ?_⟩
    · rw [hstep]
      show (chunkCheck allOk (emitSample S2)).is_recording = true
      rw [chunkCheck_is_recording, emitSample_is_recording, hrec2, h1]
    · rw [hstep]
      show (chunkCheck allOk (emitSample S2)).compressed_buffer ≠ none
      rw [chunkCheck_compressed_buffer]
      exact emitSample_compressed_ne S2 (by rw [hcomp2]; exact h3)
    · intro hnone
      rw [hds] at hnone
      exact absurd hnone (by simp)
    · intro v hv
      rw [hds] at hv
      have hv2 : v = toInt16 (ratTrunc ((S.accumulated_samples + (x : ℚ)) /
          ((S.sample_count + 1 : ℕ) : ℚ))) := by
        have hv' : some (toInt16 (ratTrunc ((S.accumulated_samples + (x : ℚ)) /
            ((S.sample_count + 1 : ℕ) : ℚ)))) = some v := hv
        injection hv' with hv'
        exact hv'.symm
      subst hv2
      rw [hstep]
      refine ⟨?_, ?_, ?_⟩
      · show (chunkCheck allOk (emitSample S2)).audio_buffer = _
        rw [chunkCheck_audio_buffer, emitSample_audio, haud2, h2, hsum2, hcnt2]
        rfl
      · show dsOf (chunkCheck allOk (emitSample S2)) = _
        rw [chunkCheck_ds, emitSample_ds, hds, hacc2]
        try rfl
      · show (chunkCheck allOk (emitSample S2)).buffer_position = _
        rw [chunkCheck_buffer_position, emitSample_buffer_position, hbp2]
  · have hstep : stepSample allOk S x = (true, chunkCheck allOk { S with
        sample_accumulator := S.sample_accumulator + 1
        accumulated_samples := S.accumulated_samples + (x : ℚ)
        sample_count := S.sample_count + 1 }) := by
      unfold stepSample
      rw [if_neg (show ¬DOWNSAMPLE_FACTOR ≤ ({ S with
        sample_accumulator := S.sample_accumulator + 1
        accumulated_samples := S.accumulated_samples + (x : ℚ)
        sample_count := S.sample_count + 1 } : MicState).sample_accumulator from hc)]
    have hds : downsampleStep (dsOf S) x =
        (none, ⟨S.sample_accumulator + 1, S.accumulated_samples + (x : ℚ),
          S.sample_count + 1⟩) := by
      unfold downsampleStep dsOf
      rw [if_neg hc]
    refine ⟨by rw [hstep], ?_, ?_, ?_, ?_⟩
    · rw [hstep]
      show (chunkCheck allOk _).is_recording = true
      rw [chunkCheck_is_recording]
      exact h1
    · rw [hstep]
      show (chunkCheck allOk _).compressed_buffer ≠ none
      rw [chunkCheck_compressed_buffer]
      exact h3
    · intro _
      rw [hstep]
      refine ⟨?_, ?_, ?_⟩
      · show (chunkCheck allOk _).audio_buffer = some a
        rw [chunkCheck_audio_buffer]
        exact h2
      · show dsOf (chunkCheck allOk _) = _
        rw [chunkCheck_ds, hds]
        try rfl
      · show (chunkCheck allOk _).buffer_position = _
        rw [chunkCheck_buffer_position]
    · intro v hv
      rw [hds] at hv
      exact absurd hv (by simp)

/-- The callback loop under the always-succeeding plan refines the
pure rate converter: it never aborts, preserves the recording guards,
appends exactly the converter's outputs to the raw track, carries the
converter state, and advances the raw cursor by the output count. -/
theorem micLoop_run (xs : List ℤ) :
    ∀ (k : ℕ) (S : MicState) (a : List ℤ),
      S.is_recording = true → S.audio_buffer = some a → S.compressed_buffer ≠ none →
      (micLoop allOkf k S xs).1 = 1 ∧
      (micLoop allOkf k S xs).2.is_recording = true ∧
      (micLoop allOkf k S xs).2.audio_buffer =
        some (a ++ (downsampleRun (dsOf S) xs).1) ∧
      (micLoop allOkf k S xs).2.compressed_buffer ≠ none ∧
      dsOf (micLoop allOkf k S xs).2 = (downsampleRun (dsOf S) xs).2 ∧
      (micLoop allOkf k S xs).2.buffer_position =
        S.buffer_position + (downsampleRun (dsOf S) xs).1.length := by
  induction xs with
  | nil =>
    intro k S a h1 h2 h3
    refine ⟨rfl, h1, ?_, h3, rfl, ?_⟩
    · show S.audio_buffer = some (a ++ (downsampleRun (dsOf S) []).1)
      rw [h2]
      simp [downsampleRun]
    · show S.buffer_position = S.buffer_position + (downsampleRun (dsOf S) []).1.length
      simp [downsampleRun]
  | cons x rest ih =>
    intro k S a h1 h2 h3
    obtain ⟨hs1, hs2, hs3, hnone, hsome⟩ := stepSample_allOk S x a h1 h2 h3
    have hrw : micLoop allOkf k S (x :: rest) =
        micLoop allOkf (k + 1) (stepSample allOk S x).2 rest :=
      micLoop_cons allOkf k S x rest hs1
    rcases hds : (downsampleStep (dsOf S) x).1 with _ | v
    · obtain ⟨ha, hd, hbp⟩ := hnone hds
      obtain ⟨i1, i2, i3, i4, i5, i6⟩ :=
        ih (k + 1) (stepSample allOk S x).2 a hs2 ha hs3
      rw [hrw, downsampleRun_cons_none _ _ _ hds, ← hd]
      exact ⟨i1, i2, i3, i4, i5, by rw [i6, hbp]⟩
    · obtain ⟨ha, hd, hbp⟩ := hsome v hds
      obtain ⟨i1, i2, i3, i4, i5, i6⟩ :=
        ih (k + 1) (stepSample allOk S x).2 (a ++ [v]) hs2 ha hs3
      rw [hrw, downsampleRun_cons_some _ _ _ _ hds, ← hd]
      refine ⟨i1, i2, ?_, i4, i5, ?_⟩
      · rw [i3]
        simp
      · rw [i6, hbp]
        simp
        omega

/-- The whole callback under the always-succeeding plan refines the
pure rate converter (the level update touches no converter state). -/
theorem micCallback_run (S : MicState) (data : List ℤ) (a : List ℤ)
    (h1 : S.is_recording = true) (h2 : S.audio_buffer = some a)
    (h3 : S.compressed_buffer ≠ none) :
    (micCallback allOkf S data).2.is_recording = true ∧
    (micCallback allOkf S data).2.audio_buffer =
      some (a ++ (downsampleRun (dsOf S) data).1) ∧
    (micCallback allOkf S data).2.compressed_buffer ≠ none ∧
    dsOf (micCallback allOkf S data).2 = (downsampleRun (dsOf S) data).2 ∧
    (micCallback allOkf S data).2.buffer_position =
      S.buffer_position + (downsampleRun (dsOf S) data).1.length := by
  unfold micCallback
  rw [if_neg (by push_neg; exact ⟨by simp [h1], by simp [h2], h3⟩)]
  have hrun := micLoop_run data 0
    { S with current_level_sq := levelSumSq data / (data.length : ℚ) } a h1 h2 h3
  exact ⟨hrun.2.1, hrun.2.2.1, hrun.2.2.2.1, hrun.2.2.2.2.1, hrun.2.2.2.2.2⟩

/-- The pure rate converter composes over concatenation: the carried
accumulator makes the output stream independent of chunking. -/
theorem downsampleRun_append (xs ys : List ℤ) : ∀ d : DownsampleState,
    downsampleRun d (xs ++ ys) =
      ((downsampleRun d xs).1 ++ (downsampleRun (downsampleRun d xs).2 ys).1,
       (downsampleRun (downsampleRun d xs).2 ys).2) := by
  induction xs with
  | nil => intro d; simp [downsampleRun]
  | cons x rest ih =>
    intro d
    rcases hds : (downsampleStep d x).1 with _ | v
    · rw [List.cons_append, downsampleRun_cons_none _ _ _ hds,
        downsampleRun_cons_none _ _ _ hds, ih]
    · rw [List.cons_append, downsampleRun_cons_some _ _ _ _ hds,
        downsampleRun_cons_some _ _ _ _ hds, ih]
      simp

/-- The fractional accumulator stays in the interval from 0 to the
ratio and records the exact balance between consumed native samples
and emitted outputs. -/
theorem downsampleRun_acc (xs : List ℤ) :
    ∀ d : DownsampleState,
      0 ≤ d.sample_accumulator → d.sample_accumulator < DOWNSAMPLE_FACTOR →
      0 ≤ (downsampleRun d xs).2.sample_accumulator ∧
      (downsampleRun d xs).2.sample_accumulator < DOWNSAMPLE_FACTOR ∧
      (downsampleRun d xs).2.sample_accumulator =
        d.sample_accumulator + xs.length -
          ((downsampleRun d xs).1.length : ℚ) * DOWNSAMPLE_FACTOR := by
  have hr1 : (1 : ℚ) < DOWNSAMPLE_FACTOR := by norm_num [DOWNSAMPLE_FACTOR]
  induction xs with
  | nil =>
    intro d h0 h1
    refine ⟨h0, h1, by simp [downsampleRun]⟩
  | cons x rest ih =>
    intro d h0 h1
    by_cases hc : DOWNSAMPLE_FACTOR ≤ d.sample_accumulator + 1
    · have hds1 : (downsampleStep d x).1 =
          some (toInt16 (ratTrunc ((d.accumulated_samples + (x : ℚ)) /
            ((d.sample_count + 1 : ℕ) : ℚ)))) := by
        unfold downsampleStep
        rw [if_pos hc]
      have hds2 : (downsampleStep d x).2 =
          ⟨d.sample_accumulator + 1 - DOWNSAMPLE_FACTOR, 0, 0⟩ := by
        unfold downsampleStep
        rw [if_pos hc]
      obtain ⟨j0, j1, j2⟩ := ih (downsampleStep d x).2
        (by rw [hds2]; dsimp; linarith)
        (by rw [hds2]; dsimp; linarith)
      rw [downsampleRun_cons_some _ _ _ _ hds1]
      refine ⟨j0, j1, ?_⟩
      show (downsampleRun (downsampleStep d x).2 rest).2.sample_accumulator = _
      rw [j2, hds2]
      dsimp
      push_cast
      ring
    · have hds1 : (downsampleStep d x).1 = none := by
        unfold downsampleStep
        rw [if_neg hc]
      have hds2 : (downsampleStep d x).2 =
          ⟨d.sample_accumulator + 1, d.accumulated_samples + (x : ℚ),
            d.sample_count + 1⟩ := by
        unfold downsampleStep
        rw [if_neg hc]
      obtain ⟨j0, j1, j2⟩ := ih (downsampleStep d x).2
        (by rw [hds2]; dsimp; linarith)
        (by rw [hds2]; dsimp; linarith [not_le.mp hc])
      rw [downsampleRun_cons_none _ _ _ hds1]
      refine ⟨j0, j1, ?_⟩
      rw [j2, hds2]
      dsimp
      push_cast
      ring

/-- Feeding a sequence of blocks accumulates exactly the converter
outputs of the concatenated stream. -/
theorem feedChunks_run (cs : List (List ℤ)) :
    ∀ (S : MicState) (a : List ℤ),
      S.is_recording = true → S.audio_buffer = some a → S.compressed_buffer ≠ none →
      (feedChunks cs S).is_recording = true ∧
      (feedChunks cs S).audio_buffer =
        some (a ++ (downsampleRun (dsOf S) cs.flatten).1) ∧
      (feedChunks cs S).compressed_buffer ≠ none ∧
      dsOf (feedChunks cs S) = (downsampleRun (dsOf S) cs.flatten).2 ∧
      (feedChunks cs S).buffer_position =
        S.buffer_position + (downsampleRun (dsOf S) cs.flatten).1.length := by
  induction cs with
  | nil =>
    intro S a h1 h2 h3
    refine ⟨h1, ?_, h3, rfl, ?_⟩
    · show S.audio_buffer = some (a ++ (downsampleRun (dsOf S) ([] : List (List ℤ)).flatten).1)
      rw [h2]
      simp [downsampleRun]
    · show S.buffer_position =
        S.buffer_position + (downsampleRun (dsOf S) ([] : List (List ℤ)).flatten).1.length
      simp [downsampleRun]
  | cons c cs' ih =>
    intro S a h1 h2 h3
    have hfc : feedChunks (c :: cs') S = feedChunks cs' (micCallback allOkf S c).2 := rfl
    obtain ⟨m1, m2, m3, m4, m5⟩ := micCallback_run S c a h1 h2 h3
    obtain ⟨i1, i2, i3, i4, i5⟩ :=
      ih (micCallback allOkf S c).2 (a ++ (downsampleRun (dsOf S) c).1) m1 m2 m3
    have hjoin : (c :: cs').flatten = c ++ cs'.flatten := List.flatten_cons ..
    rw [hfc, hjoin, downsampleRun_append]
    refine ⟨i1, ?_, i3, ?_, ?_⟩
    · rw [i2, m4]
      simp
    · rw [i4, m4]
    · rw [i5, m4, m5]
      simp
      omega

/-! ## Claim C1: accumulator-carry correctness -/

/-- C1.  For every native input stream and every way of splitting it
across successive callback invocations, the total number of
downsampled output samples (the raw write cursor from a fresh
recording) is exactly the floor of native_count divided by the ratio
44100/8000, i.e. 80 n / 441 — in particular within 1 of it, as the
claim states — and it is independent of the chunking, equalling the
count from feeding the whole stream in a single call: the accumulator
carries the remainder by subtracting the ratio, never resetting. -/
theorem rate_converter_output_count (cs : List (List ℤ)) :
    (feedChunks cs startState).buffer_position =
      80 * (cs.map List.length).sum / 441 ∧
    (((feedChunks cs startState).buffer_position : ℤ) -
      ((80 * (cs.map List.length).sum / 441 : ℕ) : ℤ)).natAbs ≤ 1 ∧
    (feedChunks cs startState).buffer_position =
      (micCallback allOkf startState cs.flatten).2.buffer_position := by
  have hrec : startState.is_recording = true := by with_unfolding_all decide
  have haud : startState.audio_buffer = some [] := by with_unfolding_all decide
  have hcomp : startState.compressed_buffer ≠ none := by with_unfolding_all decide
  have hbp0 : startState.buffer_position = 0 := by with_unfolding_all decide
  have hds0 : dsOf startState = ⟨0, 0, 0⟩ := by with_unfolding_all decide
  obtain ⟨f1, f2, f3, f4, f5⟩ := feedChunks_run cs startState [] hrec haud hcomp
  obtain ⟨m1, m2, m3, m4, m5⟩ := micCallback_run startState cs.flatten [] hrec haud hcomp
  have hs0 : (dsOf startState).sample_accumulator = 0 := by rw [hds0]
  obtain ⟨j0, j1, j2⟩ := downsampleRun_acc cs.flatten (dsOf startState)
    (by rw [hds0])
    (by rw [hds0]; show (0 : ℚ) < DOWNSAMPLE_FACTOR; norm_num [DOWNSAMPLE_FACTOR])
  set K := (downsampleRun (dsOf startState) cs.flatten).1.length with hK
  set N := cs.flatten.length with hN
  have h80r : (80 : ℚ) * DOWNSAMPLE_FACTOR = 441 := by norm_num [DOWNSAMPLE_FACTOR]
  have hKN : K = 80 * N / 441 := by
    have h1 : (K : ℚ) * DOWNSAMPLE_FACTOR ≤ N := by
      rw [hs0] at j2
      linarith [j0, j2.ge, j2.le]
    have h2 : (N : ℚ) < ((K : ℚ) + 1) * DOWNSAMPLE_FACTOR := by
      rw [hs0] at j2
      nlinarith [j1, j2.ge, j2.le]
    have hle : (441 : ℚ) * K ≤ 80 * N := by
      calc (441 : ℚ) * K = (80 * DOWNSAMPLE_FACTOR) * K := by rw [h80r]
        _ = 80 * ((K : ℚ) * DOWNSAMPLE_FACTOR) := by ring
        _ ≤ 80 * N := by linarith
    have hlt : (80 : ℚ) * N < 441 * ((K : ℚ) + 1) := by
      calc (80 : ℚ) * N < 80 * (((K : ℚ) + 1) * DOWNSAMPLE_FACTOR) := by linarith
        _ = (80 * DOWNSAMPLE_FACTOR) * ((K : ℚ) + 1) := by ring
        _ = 441 * ((K : ℚ) + 1) := by rw [h80r]
    have hleN : 441 * K ≤ 80 * N := by exact_mod_cast hle
    have hltN : 80 * N < 441 * (K + 1) := by exact_mod_cast hlt
    omega
  have hsum : N = (cs.map List.length).sum := by
    rw [hN]
    exact List.length_flatten cs
  have hcount : (feedChunks cs startState).buffer_position =
      80 * (cs.map List.length).sum / 441 := by
    rw [f5, hbp0, hKN, hsum]
    omega
  refine ⟨hcount, by rw [hcount]; simp, ?_⟩
  rw [f5, m5]

/-! ## Claim C2: averaging correctness -/

theorem toInt16_eq (n : ℤ) (h1 : -32768 ≤ n) (h2 : n < 32768) : toInt16 n = n := by
  unfold toInt16
  rw [Int.emod_eq_of_lt (by omega) (by omega)]
  omega

theorem list_sum_bounds (g : List ℤ) :
    (∀ y ∈ g, -32768 ≤ y ∧ y ≤ 32767) →
    -32768 * (g.length : ℤ) ≤ g.sum ∧ g.sum ≤ 32767 * (g.length : ℤ) := by
  induction g with
  | nil => intro _; simp
  | cons y ys ih =>
    intro hr
    obtain ⟨h1, h2⟩ := hr y (List.mem_cons_self y ys)
    obtain ⟨i1, i2⟩ := ih (fun z hz => hr z (List.mem_cons_of_mem y hz))
    simp only [List.sum_cons, List.length_cons]
    push_cast
    constructor <;> linarith

theorem ratTrunc_bounds (q : ℚ) (h1 : -32768 ≤ q) (h2 : q ≤ 32767) :
    -32768 ≤ ratTrunc q ∧ ratTrunc q ≤ 32767 := by
  unfold ratTrunc
  split_ifs with h
  · constructor
    · have := Int.floor_nonneg.mpr h
      omega
    · have hf : (⌊q⌋ : ℚ) ≤ 32767 := le_trans (Int.floor_le q) h2
      exact_mod_cast hf
  · constructor
    · have hc : (-32768 : ℚ) ≤ (⌈q⌉ : ℚ) := le_trans h1 (Int.le_ceil q)
      exact_mod_cast hc
    · have := Int.ceil_le.mpr (show q ≤ ((0 : ℤ) : ℚ) by push_cast; linarith [not_le.mp h])
      omega

theorem truncMean_int16 (g : List ℤ) (hne : g ≠ [])
    (hr : ∀ y ∈ g, -32768 ≤ y ∧ y ≤ 32767) :
    toInt16 (ratTrunc ((g.sum : ℚ) / (g.length : ℚ))) =
      ratTrunc ((g.sum : ℚ) / (g.length : ℚ)) := by
  have hlen : 0 < (g.length : ℚ) := by
    have := List.length_pos.mpr hne
    exact_mod_cast this
  obtain ⟨hs1, hs2⟩ := list_sum_bounds g hr
  have hq1 : (-32768 : ℚ) ≤ (g.sum : ℚ) / (g.length : ℚ) := by
    rw [le_div_iff₀ hlen]
    exact_mod_cast hs1
  have hq2 : (g.sum : ℚ) / (g.length : ℚ) ≤ 32767 := by
    rw [div_le_iff₀ hlen]
    exact_mod_cast hs2
  obtain ⟨ht1, ht2⟩ := ratTrunc_bounds _ hq1 hq2
  exact toInt16_eq _ ht1 (by omega)

theorem slotSplitAux_cons_emit (acc : ℚ) (cur : List ℤ) (x : ℤ) (xs : List ℤ)
    (hc : DOWNSAMPLE_FACTOR ≤ acc + 1) :
    slotSplitAux acc cur (x :: xs) =
      ((cur ++ [x]) :: (slotSplitAux (acc + 1 - DOWNSAMPLE_FACTOR) [] xs).1,
       (slotSplitAux (acc + 1 - DOWNSAMPLE_FACTOR) [] xs).2) := by
  simp only [slotSplitAux]
  rw [if_pos hc]

theorem slotSplitAux_cons_skip (acc : ℚ) (cur : List ℤ) (x : ℤ) (xs : List ℤ)
    (hc : ¬DOWNSAMPLE_FACTOR ≤ acc + 1) :
    slotSplitAux acc cur (x :: xs) = slotSplitAux (acc + 1) (cur ++ [x]) xs := by
  simp only [slotSplitAux]
  rw [if_neg hc]

/-- The rate converter emits exactly the truncated means of the slot
partition: the running sum and count always equal the sum and length
of the current partial slot, and no sample is lost or duplicated. -/
theorem downsampleRun_slots (xs : List ℤ) :
    ∀ (acc : ℚ) (cur : List ℤ),
      (∀ y ∈ cur, -32768 ≤ y ∧ y ≤ 32767) →
      (∀ y ∈ xs, -32768 ≤ y ∧ y ≤ 32767) →
      (downsampleRun ⟨acc, ((cur.sum : ℤ) : ℚ), cur.length⟩ xs).1 =
        (slotSplitAux acc cur xs).1.map
          (fun g => ratTrunc ((g.sum : ℚ) / (g.length : ℚ))) ∧
      (slotSplitAux acc cur xs).1.flatten ++ (slotSplitAux acc cur xs).2.1 =
        cur ++ xs ∧
      ∀ g ∈ (slotSplitAux acc cur xs).1, g ≠ [] := by
  induction xs with
  | nil =>
    intro acc cur hcur hxs
    refine ⟨rfl, by simp [slotSplitAux], by simp [slotSplitAux]⟩
  | cons x xs' ih =>
    intro acc cur hcur hxs
    have hx := hxs x (List.mem_cons_self x xs')
    have hxs' : ∀ y ∈ xs', -32768 ≤ y ∧ y ≤ 32767 := fun y hy =>
      hxs y (List.mem_cons_of_mem x hy)
    have hcx : ∀ y ∈ cur ++ [x], -32768 ≤ y ∧ y ≤ 32767 := by
      intro y hy
      rcases List.mem_append.mp hy with h | h
      · exact hcur y h
      · have := List.mem_singleton.mp h
        subst this
        exact hx
    by_cases hc : DOWNSAMPLE_FACTOR ≤ acc + 1
    · have hds1 : (downsampleStep ⟨acc, ((cur.sum : ℤ) : ℚ), cur.length⟩ x).1 =
          some (toInt16 (ratTrunc ((((cur.sum : ℤ) : ℚ) + (x : ℚ)) /
            ((cur.length + 1 : ℕ) : ℚ)))) := by
        unfold downsampleStep
        rw [if_pos hc]
      have hds2 : (downsampleStep ⟨acc, ((cur.sum : ℤ) : ℚ), cur.length⟩ x).2 =
          ⟨acc + 1 - DOWNSAMPLE_FACTOR, 0, 0⟩ := by
        unfold downsampleStep
        rw [if_pos hc]
      have hsum : (((cur ++ [x]).sum : ℤ) : ℚ) = ((cur.sum : ℤ) : ℚ) + (x : ℚ) := by
        push_cast [List.sum_append]
        simp
      have hlen : (((cur ++ [x]).length : ℕ) : ℚ) = ((cur.length + 1 : ℕ) : ℚ) := by
        simp
      have hvmean : toInt16 (ratTrunc ((((cur.sum : ℤ) : ℚ) + (x : ℚ)) /
            ((cur.length + 1 : ℕ) : ℚ))) =
          ratTrunc ((((cur ++ [x]).sum : ℤ) : ℚ) / (((cur ++ [x]).length : ℕ) : ℚ)) := by
        have hm := truncMean_int16 (cur ++ [x]) (by simp) hcx
        rw [hsum, hlen] at hm
        rw [hm, hsum, hlen]
      obtain ⟨i1, i2, i3⟩ := ih (acc + 1 - DOWNSAMPLE_FACTOR) []
        (by intro y hy; simp at hy) hxs'
      simp only [List.sum_nil, List.length_nil, Int.cast_zero] at i1
      rw [downsampleRun_cons_some _ _ _ _ hds1, slotSplitAux_cons_emit _ _ _ _ hc]
      refine ⟨?_, ?_, ?_⟩
      · show _ :: (downsampleRun
            (downsampleStep ⟨acc, ((cur.sum : ℤ) : ℚ), cur.length⟩ x).2 xs').1 = _
        rw [hds2, List.map_cons, hvmean, i1]
      · show ((cur ++ [x]) :: (slotSplitAux (acc + 1 - DOWNSAMPLE_FACTOR) [] xs').1).flatten
            ++ (slotSplitAux (acc + 1 - DOWNSAMPLE_FACTOR) [] xs').2.1 = cur ++ x :: xs'
        rw [List.flatten_cons, List.append_assoc, i2]
        simp
      · intro g hg
        rcases List.mem_cons.mp hg with h | h
        · subst h
          simp
        · exact i3 g h
    · have hds1 : (downsampleStep ⟨acc, ((cur.sum : ℤ) : ℚ), cur.length⟩ x).1 = none := by
        unfold downsampleStep
        rw [if_neg hc]
      have hds2 : (downsampleStep ⟨acc, ((cur.sum : ℤ) : ℚ), cur.length⟩ x).2 =
          ⟨acc + 1, ((cur.sum : ℤ) : ℚ) + (x : ℚ), cur.length + 1⟩ := by
        unfold downsampleStep
        rw [if_neg hc]
      obtain ⟨i1, i2, i3⟩ := ih (acc + 1) (cur ++ [x]) hcx hxs'
      have hsum : (((cur ++ [x]).sum : ℤ) : ℚ) = ((cur.sum : ℤ) : ℚ) + (x : ℚ) := by
        push_cast [List.sum_append]
        simp
      have hlen : (cur ++ [x]).length = cur.length + 1 := by simp
      rw [hsum, hlen] at i1
      rw [downsampleRun_cons_none _ _ _ hds1, slotSplitAux_cons_skip _ _ _ _ hc, hds2]
      refine ⟨i1, ?_, i3⟩
      rw [i2]
      simp

/-- C2 counterexample.  The claim states the emitted sample is the
rounded arithmetic mean of its slot's native samples.  The first slot
of the stream 1,1,1,1,1,0 consists of exactly those six samples (the
accumulator first reaches 5.5125 at the sixth), whose mean 5/6 rounds
to 1; the code emits the C-cast truncation toward zero, 0. -/
theorem downsample_rounded_mean_cex :
    (downsampleRun ⟨0, 0, 0⟩ [1, 1, 1, 1, 1, 0]).1 = [0] ∧
    (slotSplit [1, 1, 1, 1, 1, 0]).1 = [[1, 1, 1, 1, 1, 0]] ∧
    round ((([1, 1, 1, 1, 1, 0] : List ℤ).sum : ℚ) /
      (([1, 1, 1, 1, 1, 0] : List ℤ).length : ℚ)) = 1 ∧
    (0 : ℤ) ≠ round ((([1, 1, 1, 1, 1, 0] : List ℤ).sum : ℚ) /
      (([1, 1, 1, 1, 1, 0] : List ℤ).length : ℚ)) := by
  with_unfolding_all decide

/-- C2, amended.  For a 16-bit native stream fed from a fresh
recording, every emitted output sample equals the arithmetic mean of
exactly the native samples of its fractional slot truncated toward
zero (the C cast), not rounded to nearest; no native sample
contributes to more than one slot and none is skipped (the completed
slots, in order, concatenated with the trailing partial slot,
reconstruct the input exactly), every slot is nonempty, and the raw
track written by the real callback is exactly this list of truncated
slot means. -/
theorem downsample_truncated_mean (xs : List ℤ)
    (hx : ∀ y ∈ xs, -32768 ≤ y ∧ y ≤ 32767) :
    (downsampleRun ⟨0, 0, 0⟩ xs).1 =
      (slotSplit xs).1.map (fun g => ratTrunc ((g.sum : ℚ) / (g.length : ℚ))) ∧
    (slotSplit xs).1.flatten ++ (slotSplit xs).2.1 = xs ∧
    (∀ g ∈ (slotSplit xs).1, g ≠ []) ∧
    (micCallback allOkf startState xs).2.audio_buffer =
      some ((slotSplit xs).1.map (fun g => ratTrunc ((g.sum : ℚ) / (g.length : ℚ)))) := by
  have hrec : startState.is_recording = true := by with_unfolding_all decide
  have haud : startState.audio_buffer = some [] := by with_unfolding_all decide
  have hcomp : startState.compressed_buffer ≠ none := by with_unfolding_all decide
  have hds0 : dsOf startState = ⟨0, 0, 0⟩ := by with_unfolding_all decide
  obtain ⟨s1, s2, s3⟩ := downsampleRun_slots xs 0 [] (by intro y hy; simp at hy) hx
  simp only [List.sum_nil, List.length_nil, Int.cast_zero, List.nil_append] at s1 s2
  have hslot : (downsampleRun ⟨0, 0, 0⟩ xs).1 =
      (slotSplit xs).1.map (fun g => ratTrunc ((g.sum : ℚ) / (g.length : ℚ))) := s1
  obtain ⟨m1, m2, m3, m4, m5⟩ := micCallback_run startState xs [] hrec haud hcomp
  refine ⟨hslot, s2, s3, ?_⟩
  rw [m2, hds0, hslot]
  simp

/-- Witness for downsample_truncated_mean at a seven-sample 16-bit
stream: one completed slot of six samples plus one pending sample. -/
theorem downsample_truncated_mean_witness :
    (downsampleRun ⟨0, 0, 0⟩ [100, -200, 300, -32768, 32767, 600, 7]).1 =
      (slotSplit [100, -200, 300, -32768, 32767, 600, 7]).1.map
        (fun g => ratTrunc ((g.sum : ℚ) / (g.length : ℚ))) ∧
    (slotSplit [100, -200, 300, -32768, 32767, 600, 7]).1.flatten ++
      (slotSplit [100, -200, 300, -32768, 32767, 600, 7]).2.1 =
      [100, -200, 300, -32768, 32767, 600, 7] ∧
    (∀ g ∈ (slotSplit [100, -200, 300, -32768, 32767, 600, 7]).1, g ≠ []) ∧
    (micCallback allOkf startState [100, -200, 300, -32768, 32767, 600, 7]).2.audio_buffer =
      some ((slotSplit [100, -200, 300, -32768, 32767, 600, 7]).1.map
        (fun g => ratTrunc ((g.sum : ℚ) / (g.length : ℚ)))) :=
  downsample_truncated_mean [100, -200, 300, -32768, 32767, 600, 7]
    (by with_unfolding_all decide)

/-- Witness for getLevel_reports_stored_level: stop on startState
preserves the level, start from the pristine state resets it to 0, and
a full-scale one-sample block yields level bounds in the unit
interval. -/
theorem getLevel_reports_stored_level_witness :
    mic_getLevel (mic_stopRecording true startState).2 = mic_getLevel startState ∧
    (mic_startRecording true true zeroState).2.current_level_sq = 0 ∧
    (micCallback allOkf startState [-32768]).2.current_level_sq =
      levelSumSq [-32768] / (([-32768] : List ℤ).length : ℚ) ∧
    0 ≤ mic_getLevel (micCallback allOkf startState [-32768]).2 ∧
    mic_getLevel (micCallback allOkf startState [-32768]).2 ≤ 1 := by
  refine ⟨(getLevel_reports_stored_level startState true allOkf []).1,
    (getLevel_reports_stored_level zeroState true allOkf []).2.1 (by decide),
    (getLevel_reports_stored_level startState true allOkf [-32768]).2.2.1
      (by decide) (by decide) (by decide),
    ?_, ?_⟩
  · exact ((getLevel_reports_stored_level startState true allOkf [-32768]).2.2.2
      (by decide) (by decide) (by decide) (by decide) (by decide)).1
  · exact ((getLevel_reports_stored_level startState true allOkf [-32768]).2.2.2
      (by decide) (by decide) (by decide) (by decide) (by decide)).2

end MicCapture
